import Mathlib

/-!
Verification of the placeholder-interpolation engine of txtdirect
(`placeholders.go`, function `parsePlaceholders`).

Strings are modelled as `List Char` (the source operates on ASCII bytes for
every character the token grammar can touch: `{`, `}`, the sigils `~ > ?`,
Go's `\w` word characters and `$`, all of which are single-byte, so the
byte-level Go code and this character-level model coincide on all valid
UTF-8 inputs).

The ambient `r.Context().Value("regexMatches")` value, the parsed cookie
list (`r.Cookie`), the parsed query parameters (`r.URL.Query()`) and the
basic-auth user (`r.BasicAuth`) are inputs produced by the Go standard
library outside this repository; they appear here as explicit fields of
`Request` / as the `RegexMatches` argument.

A Go runtime panic (the unchecked `reflect.ValueOf(matches).Index(...)`
call) is modelled by the distinguished result `crashed`, kept separate
from the `(string, error)` values the function actually returns.
-/

abbrev Str := List Char

/-- Character classes of the source's regular expressions, by ASCII code:
`[a-zA-Z]` of the named-match check. -/
def isAlphaCh (c : Char) : Bool :=
  (65 ≤ c.toNat && c.toNat ≤ 90) || (97 ≤ c.toNat && c.toNat ≤ 122)

/-- `\d` = `[0-9]` of the numbered-match check. -/
def isDigitCh (c : Char) : Bool :=
  48 ≤ c.toNat && c.toNat ≤ 57

/-- Go's `\w` = `[0-9A-Za-z_]` used by `PlaceholderRegex`. -/
def isWordChar (c : Char) : Bool :=
  isAlphaCh c || isDigitCh c || c.toNat = 95

/-- Prefix test on character lists (`strings.HasPrefix` / the anchoring of
a pattern at a position). -/
def isPre : Str → Str → Bool
  | [], _ => true
  | _ :: _, [] => false
  | a :: as, b :: bs => if a = b then isPre as bs else false

/-- One step of `strings.Replace(s, pat, rep, -1)` with explicit fuel; the
fuel `s.length` used by `replaceAll` is always sufficient because every
step consumes at least one character of `s` (all patterns the source
builds are nonempty placeholder tokens). -/
def replaceAux : Nat → Str → Str → Str → Str
  | 0, s, _, _ => s
  | _ + 1, [], _, _ => []
  | fuel + 1, c :: rest, pat, rep =>
    if isPre pat (c :: rest) then
      rep ++ replaceAux fuel (List.drop pat.length (c :: rest)) pat rep
    else
      c :: replaceAux fuel rest pat rep

/-- `strings.Replace(s, pat, rep, -1)`: replace every non-overlapping
occurrence of `pat` in `s`, scanning left to right. -/
def replaceAll (s pat rep : Str) : Str :=
  replaceAux s.length s pat rep

/-- `pat` occurs as a contiguous substring of `s`. -/
def containsSub : Str → Str → Bool
  | s, pat =>
    match s with
    | [] => isPre pat []
    | _ :: rest => isPre pat s || containsSub rest pat

/-- `strings.Join(values, ",")`. -/
def joinComma (vs : List Str) : Str :=
  List.intercalate [','] vs

/-- `strings.EqualFold` restricted to ASCII (header names are ASCII): the
two strings agree after lower-casing. -/
def eqFold (a b : Str) : Bool :=
  a.map Char.toLower = b.map Char.toLower

/-- Numeric value of a digit string (most significant digit first). -/
def digitsVal (s : Str) : Nat :=
  s.foldl (fun a c => a * 10 + (c.toNat - 48)) 0

/-- `strconv.Atoi` restricted to the inputs reachable here (strings of
word characters, hence no sign), on a 64-bit platform: succeeds exactly
on nonempty all-digit strings whose value fits Go's `int`, i.e. is at
most 2^63 - 1 = 9223372036854775807; a larger value makes `Atoi` return
its range error. -/
def atoiNat (s : Str) : Option Nat :=
  if s ≠ [] ∧ s.all isDigitCh ∧ digitsVal s ≤ 9223372036854775807 then
    Option.some (digitsVal s)
  else Option.none

/-- `strings.Split(s, sep)` for a one-character separator; the result is
always nonempty. -/
def splitOnChar (sep : Char) : Str → List Str
  | [] => [[]]
  | c :: rest =>
    if c = sep then [] :: splitOnChar sep rest
    else
      match splitOnChar sep rest with
      | g :: gs => (c :: g) :: gs
      | [] => [[c]]

/-- Lines 47-52 / 86-91 of the source: strip a `:port` suffix from the
Host header by splitting on `:` and keeping the first piece. -/
def hostOnly (h : Str) : Str :=
  if h.any (fun c => c = ':') then (splitOnChar ':' h).headD [] else h

/-- `path.Split(p)`: split at the final slash; the directory keeps the
trailing slash, the file is the part after it. -/
def pathSplit (p : Str) : Str × Str :=
  let f := (p.reverse.takeWhile (fun c => c ≠ '/')).reverse
  (p.take (p.length - f.length), f)

/-- Upper-case hexadecimal digit, as produced by `url.QueryEscape`. -/
def hexDigit (n : Nat) : Char :=
  if n < 10 then Char.ofNat (48 + n) else Char.ofNat (65 + (n - 10))

/-- `url.QueryEscape` of one character (ASCII-exact model: alphanumerics
and `-_.~` kept, space becomes `+`, anything else percent-encoded). -/
def escChar (c : Char) : Str :=
  if isAlphaCh c || isDigitCh c || c = '-' || c = '_' || c = '.' || c = '~' then [c]
  else if c = ' ' then ['+']
  else ['%', hexDigit (c.toNat / 16 % 16), hexDigit (c.toNat % 16)]

/-- `url.QueryEscape` (standard library collaborator of the `_escaped`
keywords). -/
def queryEscape (s : Str) : Str :=
  (s.map escChar).flatten

/-- First value bound to an exact key in an association list (`r.Cookie`
returning the first cookie of that name; `url.Values` lookup). -/
def assocFirst (key : Str) : List (Str × α) → Option α
  | [] => Option.none
  | (k, v) :: rest => if k = key then Option.some v else assocFirst key rest

/-- `url.Values.Get`: first value for the key, `""` when absent. -/
def queryGet (params : List (Str × List Str)) (key : Str) : Str :=
  match assocFirst key params with
  | Option.some (v :: _) => v
  | _ => []

/-- First entry of an association list whose key satisfies `pred`. -/
def lookup1 (pred : Str → Bool) (l : List (Str × α)) : Option (Str × α) :=
  (l.filter (fun p => pred p.1)).head?

/-- The shared shape of the source's two `for ... range` map loops (header
loop, lines 100-105, and named-match loop, lines 135-140): for every entry
whose key satisfies `pred`, globally replace `tok` by the entry's value in
the evolving string. -/
def mapLoop (tok : Str) (pred : Str → Bool) (toVal : α → Str) :
    List (Str × α) → Str → Str
  | [], input => input
  | (k, v) :: rest, input =>
    mapLoop tok pred toVal rest
      (if pred k then replaceAll input tok (toVal v) else input)

/-- Decimal rendering of a natural number (`fmt.Sprintf("%d", n)`). -/
def natDigits (n : Nat) : Str :=
  Nat.toDigits 10 n

/-!  The token scanner: `PlaceholderRegex = {[~>?]?\w+}` with
`FindAllStringSubmatch(input, -1)` — all non-overlapping leftmost matches.
A match anchored at a `{` is: the `{`, an optional sigil from `~ > ?`, a
nonempty maximal run of word characters, and a closing `}` (sigil
characters are not word characters, so taking the sigil when present is
the only way a match can succeed).  -/

/-- Try to complete a token match after an opening `{`; returns the full
token text and the number of characters consumed after the `{`. -/
def tokenAfterBrace (rest : Str) : Option (Str × Nat) :=
  let sigr : Str × Str :=
    match rest with
    | c :: r => if c = '~' ∨ c = '>' ∨ c = '?' then ([c], r) else ([], rest)
    | [] => ([], [])
  let body := sigr.2.takeWhile isWordChar
  match List.drop body.length sigr.2 with
  | '}' :: _ =>
    if body = [] then Option.none
    else Option.some ('{' :: (sigr.1 ++ body ++ ['}']), sigr.1.length + body.length + 1)
  | _ => Option.none

/-- Scan for all non-overlapping token matches, left to right (fuel-based;
`s.length` fuel suffices since every step consumes at least one
character). -/
def scanAux : Nat → Str → List Str
  | 0, _ => []
  | _ + 1, [] => []
  | fuel + 1, c :: rest =>
    if c = '{' then
      match tokenAfterBrace rest with
      | Option.some (t, k) => t :: scanAux fuel (List.drop k rest)
      | Option.none => scanAux fuel rest
    else scanAux fuel rest

/-- `PlaceholderRegex.FindAllStringSubmatch(input, -1)`, each match
reduced to its full text (`placeholder[0]`). -/
def scanTokens (s : Str) : List Str :=
  scanAux s.length s

/-- Read-only view of the inbound request, mirroring exactly the fields
`parsePlaceholders` reads.  `headers` models the `http.Header` map (keys
unique as written, iteration order given by the list order); `cookies`
and `queryParams` model the standard library's parsed views. -/
structure Request where
  uri : Str
  path : Str
  host : Str
  method : Str
  port : Str
  rawQuery : Str
  basicAuthUser : Option Str
  headers : List (Str × List Str)
  cookies : List (Str × Str)
  queryParams : List (Str × List Str)

/-- The untyped `r.Context().Value("regexMatches")` value: nil, a
`[]string` of positional captures, or a `map[string]string` of named
captures. -/
inductive RegexMatches where
  | nilVal : RegexMatches
  | slice (caps : List Str) : RegexMatches
  | strMap (pairs : List (Str × Str)) : RegexMatches
deriving DecidableEq

/-- The error values `parsePlaceholders` can return (each corresponds to
one `return "", err` site in the source). -/
inductive RErr where
  /-- line 81: `strconv.Atoi` failed on the text after `{label` — either
  non-numeric text, or a numeric value beyond Go's 64-bit `int` range. -/
  | atoiErr : RErr
  /-- line 84: `{label0} is not supported` (index < 1). -/
  | invalidLabelIndex : RErr
  /-- line 94: `Cannot parse a label greater than <n>` (n = label count). -/
  | labelIndexOutOfRange (n : Nat) : RErr
  /-- line 124: `couldn't get index of regex match` (unreachable: the
  branch guard already established the character is a digit). -/
  | numericAtoiErr : RErr
deriving DecidableEq

/-- Control outcome of processing one placeholder: continue with the
updated string, execute `return "", err`, or crash with a runtime panic. -/
inductive Ctl where
  | next (s : Str) : Ctl
  | retErr (s : Str) (e : RErr) : Ctl
  | crashed : Ctl
deriving DecidableEq

/-- Observable result of the whole call: a normal `(string, error)`
return, or a runtime panic. -/
inductive RunResult where
  | ret (out : Str) (e : Option RErr) : RunResult
  | crashed : RunResult
deriving DecidableEq

def kwUri : Str := ['{', 'u', 'r', 'i', '}']
def kwDir : Str := ['{', 'd', 'i', 'r', '}']
def kwFile : Str := ['{', 'f', 'i', 'l', 'e', '}']
def kwHost : Str := ['{', 'h', 'o', 's', 't', '}']
def kwHostonly : Str := ['{', 'h', 'o', 's', 't', 'o', 'n', 'l', 'y', '}']
def kwMethod : Str := ['{', 'm', 'e', 't', 'h', 'o', 'd', '}']
def kwPath : Str := ['{', 'p', 'a', 't', 'h', '}']
def kwPathEsc : Str := ['{', 'p', 'a', 't', 'h', '_', 'e', 's', 'c', 'a', 'p', 'e', 'd', '}']
def kwPort : Str := ['{', 'p', 'o', 'r', 't', '}']
def kwQuery : Str := ['{', 'q', 'u', 'e', 'r', 'y', '}']
def kwQueryEsc : Str := ['{', 'q', 'u', 'e', 'r', 'y', '_', 'e', 's', 'c', 'a', 'p', 'e', 'd', '}']
def kwUriEsc : Str := ['{', 'u', 'r', 'i', '_', 'e', 's', 'c', 'a', 'p', 'e', 'd', '}']
def kwUser : Str := ['{', 'u', 's', 'e', 'r', '}']

/-- The thirteen exact-keyword cases of the `switch`, in source order. -/
def keywordToks : List Str :=
  [kwUri, kwDir, kwFile, kwHost, kwHostonly, kwMethod, kwPath, kwPathEsc,
   kwPort, kwQuery, kwQueryEsc, kwUriEsc, kwUser]

/-- Lines 35-74: the `switch placeholder[0]` over the exact keywords. -/
def switchStep (r : Request) (tok input : Str) : Str :=
  if tok = kwUri then replaceAll input tok r.uri
  else if tok = kwDir then replaceAll input tok (pathSplit r.path).1
  else if tok = kwFile then replaceAll input tok (pathSplit r.path).2
  else if tok = kwHost then replaceAll input tok r.host
  else if tok = kwHostonly then replaceAll input tok (hostOnly r.host)
  else if tok = kwMethod then replaceAll input tok r.method
  else if tok = kwPath then replaceAll input tok r.path
  else if tok = kwPathEsc then replaceAll input tok (queryEscape r.path)
  else if tok = kwPort then replaceAll input tok r.port
  else if tok = kwQuery then replaceAll input tok r.rawQuery
  else if tok = kwQueryEsc then replaceAll input tok (queryEscape r.rawQuery)
  else if tok = kwUriEsc then replaceAll input tok (queryEscape r.uri)
  else if tok = kwUser then
    -- lines 68-73: when basic auth is absent, first replace with "" and
    -- then replace with the (zero-value, empty) user; when present,
    -- replace with the user.
    let u := r.basicAuthUser.getD []
    let input1 := if r.basicAuthUser.isNone then replaceAll input tok [] else input
    replaceAll input1 tok u
  else input

/-- `"{label"`, the prefix tested at line 77. -/
def labelPre : Str := ['{', 'l', 'a', 'b', 'e', 'l']

/-- Lines 77-96: the `{labelN}` branch.  `(tok.drop 6).dropLast` is the
byte slice `placeholder[0][6 : len-1]`. -/
def labelStep (r : Request) (tok input : Str) : Ctl :=
  if isPre labelPre tok then
    match atoiNat ((tok.drop 6).dropLast) with
    | Option.none => Ctl.retErr [] RErr.atoiErr
    | Option.some n =>
      if n < 1 then Ctl.retErr [] RErr.invalidLabelIndex
      else
        if n > (splitOnChar '.' (hostOnly r.host)).length then
          Ctl.retErr [] (RErr.labelIndexOutOfRange (splitOnChar '.' (hostOnly r.host)).length)
        else Ctl.next (replaceAll input tok ((splitOnChar '.' (hostOnly r.host)).getD (n - 1) []))
  else Ctl.next input

/-- Lines 98-106: the `{>Name}` branch — iterate over the header map; for
every key equal to `Name` under `strings.EqualFold`, replace the token by
the key's values joined with `,`. -/
def headerStep (r : Request) (tok input : Str) : Str :=
  if tok.getD 1 ' ' = '>' then
    mapLoop tok (fun k => eqFold k ((tok.drop 2).dropLast)) joinComma r.headers input
  else input

/-- Lines 107-112: the `{~name}` branch — replace only when `r.Cookie`
finds a cookie of that exact name (a miss leaves the string untouched). -/
def cookieStep (r : Request) (tok input : Str) : Str :=
  if tok.getD 1 ' ' = '~' then
    match assocFirst ((tok.drop 2).dropLast) r.cookies with
    | Option.some v => replaceAll input tok v
    | Option.none => input
  else input

/-- Lines 113-117: the `{?name}` branch — always replace, with
`query.Get(name)` (empty when the parameter is absent). -/
def queryStep (r : Request) (tok input : Str) : Str :=
  if tok.getD 1 ' ' = '?' then
    replaceAll input tok (queryGet r.queryParams ((tok.drop 2).dropLast))
  else input

/-- Lines 119-128: the numbered-match branch.  The guard tests only
`placeholder[0][1]`, and the index parsed is that single character.  The
replacement value is fetched with `reflect.ValueOf(matches).Index(index-1)`,
which panics when the context value is not a slice or the index is out of
its range. -/
def numberStep (rm : RegexMatches) (tok input : Str) : Ctl :=
  if isDigitCh (tok.getD 1 ' ') then
    match atoiNat [tok.getD 1 ' '] with
    | Option.none => Ctl.retErr [] RErr.numericAtoiErr
    | Option.some index =>
      match rm with
      | RegexMatches.slice caps =>
        if 1 ≤ index ∧ index - 1 < caps.length then
          Ctl.next (replaceAll input tok (caps.getD (index - 1) []))
        else Ctl.crashed
      | _ => Ctl.crashed
  else Ctl.next input

/-- Lines 130-142: the named-match branch.  The guard
`[a-zA-Z]+[0-9]*` is unanchored, so it holds exactly when the token body
(sigil included) contains a letter; the branch acts only when the context
value is a map, iterating its entries and replacing on exact key match
with the body. -/
def namedStep (rm : RegexMatches) (tok input : Str) : Str :=
  if ((tok.drop 1).dropLast).any isAlphaCh then
    match rm with
    | RegexMatches.strMap pairs =>
      mapLoop tok (fun k => decide (k = (tok.drop 1).dropLast)) id pairs input
    | _ => input
  else input

/-- The body of the `for _, placeholder := range placeholders` loop for a
single placeholder: the `switch`, then each of the five `if` blocks, in
source order.  The label and numbered branches can return an error or
panic; the rest only transform the string. -/
def processToken (r : Request) (rm : RegexMatches) (tok input : Str) : Ctl :=
  match labelStep r tok (switchStep r tok input) with
  | Ctl.retErr s e => Ctl.retErr s e
  | Ctl.crashed => Ctl.crashed
  | Ctl.next i2 =>
    match numberStep rm tok (queryStep r tok (cookieStep r tok (headerStep r tok i2))) with
    | Ctl.retErr s e => Ctl.retErr s e
    | Ctl.crashed => Ctl.crashed
    | Ctl.next i6 => Ctl.next (namedStep rm tok i6)

/-- The placeholder loop over the scan of the original template. -/
def runTokens (r : Request) (rm : RegexMatches) : List Str → Str → Ctl
  | [], input => Ctl.next input
  | t :: ts, input =>
    match processToken r rm t input with
    | Ctl.next i2 => runTokens r rm ts i2
    | Ctl.retErr s e => Ctl.retErr s e
    | Ctl.crashed => Ctl.crashed

/-- `fmt.Sprintf("{$%d}", n)`. -/
def pathToken (n : Nat) : Str :=
  '{' :: '$' :: (natDigits n ++ ['}'])

/-- Lines 145-147: the unconditional second pass — for the `k`-th path
segment (0-based `k`), replace every `{$(k+1)}`. -/
def pathLoop : Nat → List Str → Str → Str
  | _, [], input => input
  | k, v :: rest, input => pathLoop (k + 1) rest (replaceAll input (pathToken (k + 1)) v)

def pathPass (ps : List Str) (input : Str) : Str :=
  pathLoop 0 ps input

/-- `parsePlaceholders(input, r, pathSlice)`: scan the original template
once, run the per-placeholder loop on the evolving string, then the
path-segment pass; each `return "", err` in the loop aborts the call. -/
def parsePlaceholders (input : Str) (r : Request) (rm : RegexMatches)
    (pathSlice : List Str) : RunResult :=
  match runTokens r rm (scanTokens input) input with
  | Ctl.next s => RunResult.ret (pathPass pathSlice s) Option.none
  | Ctl.retErr s e => RunResult.ret s (Option.some e)
  | Ctl.crashed => RunResult.crashed

/-- A fixed concrete request used by the closed evaluations: no cookies,
no headers, no query parameters, no basic auth. -/
def req0 : Request :=
  { uri := [], path := [], host := ['a', '.', 'b', '.', 'c'], method := ['G', 'E', 'T']
    port := [], rawQuery := [], basicAuthUser := Option.none
    headers := [], cookies := [], queryParams := [] }

/-! ## Basic lemmas about the string utilities -/

theorem scanAux_nil (f : Nat) : scanAux f ([] : Str) = [] := by
  cases f <;> rfl

theorem replaceAux_nil (f : Nat) (pat rep : Str) : replaceAux f [] pat rep = [] := by
  cases f <;> rfl

theorem isPre_refl (s : Str) : isPre s s = true := by
  induction s with
  | nil => rfl
  | cons c rest ih => simp [isPre, ih]

theorem replaceAll_self (pat rep : Str) (h : pat ≠ []) : replaceAll pat pat rep = rep := by
  cases pat with
  | nil => exact absurd rfl h
  | cons c cs =>
    show replaceAux (cs.length + 1) (c :: cs) (c :: cs) rep = rep
    simp only [replaceAux, isPre_refl, if_pos]
    rw [List.drop_length, replaceAux_nil, List.append_nil]

theorem replaceAux_of_not_contains (pat rep : Str) :
    ∀ (f : Nat) (s : Str), containsSub s pat = false → replaceAux f s pat rep = s := by
  intro f
  induction f with
  | zero => intro s _; rfl
  | succ f ih =>
    intro s h
    cases s with
    | nil => rfl
    | cons c rest =>
      have h' : isPre pat (c :: rest) = false ∧ containsSub rest pat = false := by
        simpa [containsSub] using h
      simp [replaceAux, h'.1, ih rest h'.2]

theorem replaceAll_of_not_contains (s pat rep : Str) (h : containsSub s pat = false) :
    replaceAll s pat rep = s :=
  replaceAux_of_not_contains pat rep s.length s h

theorem takeWhile_append_stop (p : Char → Bool) (body : Str) (c : Char) (tail : Str)
    (hw : body.all p = true) (hc : p c = false) :
    (body ++ c :: tail).takeWhile p = body := by
  induction body with
  | nil => simp [List.takeWhile_cons, hc]
  | cons b bs ih =>
    simp only [List.all_cons, Bool.and_eq_true] at hw
    simp [List.takeWhile_cons, hw.1, ih hw.2]

theorem wordChar_not_sigil (c : Char) (h : isWordChar c = true) :
    ¬(c = '~' ∨ c = '>' ∨ c = '?') := by
  rintro (rfl | rfl | rfl) <;> revert h <;> decide

/-! ## Scanner lemmas -/

theorem tokenAfterBrace_sigil (c : Char) (hc : c = '~' ∨ c = '>' ∨ c = '?')
    (body : Str) (hb : body ≠ []) (hw : body.all isWordChar = true) :
    tokenAfterBrace (c :: (body ++ ['}'])) =
      Option.some ('{' :: c :: (body ++ ['}']), body.length + 2) := by
  have ht : (body ++ ['}']).takeWhile isWordChar = body :=
    takeWhile_append_stop isWordChar body '}' [] hw (by decide)
  have hd : List.drop (List.length body) (body ++ ['}']) = ('}' : Char) :: [] := by
    simp [List.drop_left body ['}']]
  simp only [tokenAfterBrace, if_pos hc, ht, hd, if_neg hb]
  simp
  omega

theorem tokenAfterBrace_plain (body : Str) (hb : body ≠ []) (hw : body.all isWordChar = true) :
    tokenAfterBrace (body ++ ['}']) =
      Option.some ('{' :: (body ++ ['}']), body.length + 1) := by
  cases body with
  | nil => exact absurd rfl hb
  | cons b bs =>
    have hw' := hw
    simp only [List.all_cons, Bool.and_eq_true] at hw'
    have hbs : ¬(b = '~' ∨ b = '>' ∨ b = '?') := wordChar_not_sigil b hw'.1
    have ht : ((b :: bs) ++ ['}']).takeWhile isWordChar = b :: bs :=
      takeWhile_append_stop isWordChar (b :: bs) '}' [] hw (by decide)
    have hd : List.drop (List.length (b :: bs)) ((b :: bs) ++ ['}']) = ('}' : Char) :: [] := by
      simp [List.drop_left (b :: bs) ['}']]
    simp only [List.cons_append, tokenAfterBrace, if_neg hbs]
    simp only [← List.cons_append, ht, hd]
    simp

theorem scan_single_sigil (c : Char) (hc : c = '~' ∨ c = '>' ∨ c = '?')
    (body : Str) (hb : body ≠ []) (hw : body.all isWordChar = true) :
    scanTokens ('{' :: c :: (body ++ ['}'])) = ['{' :: c :: (body ++ ['}'])] := by
  have hlen : ('{' :: c :: (body ++ ['}'])).length = body.length + 2 + 1 := by
    simp
  show scanAux ('{' :: c :: (body ++ ['}'])).length ('{' :: c :: (body ++ ['}'])) = _
  rw [hlen]
  simp only [scanAux, tokenAfterBrace_sigil c hc body hb hw, if_pos]
  have hdrop : List.drop (body.length + 2) (c :: (body ++ ['}'])) = [] := by
    have h2 : (c :: (body ++ ['}'])).length = body.length + 2 := by simp
    rw [← h2, List.drop_length]
  rw [hdrop, scanAux_nil]

theorem scan_single_plain (body : Str) (hb : body ≠ []) (hw : body.all isWordChar = true) :
    scanTokens ('{' :: (body ++ ['}'])) = ['{' :: (body ++ ['}'])] := by
  have hlen : ('{' :: (body ++ ['}'])).length = body.length + 1 + 1 := by
    simp
  show scanAux ('{' :: (body ++ ['}'])).length ('{' :: (body ++ ['}'])) = _
  rw [hlen]
  simp only [scanAux, tokenAfterBrace_plain body hb hw, if_pos]
  have hdrop : List.drop (body.length + 1) (body ++ ['}']) = [] := by
    have h2 : (body ++ ['}']).length = body.length + 1 := by simp
    rw [← h2, List.drop_length]
  rw [hdrop, scanAux_nil]

/-! ## The two map loops: canonical form and iteration-order independence -/

theorem mapLoop_nomatch {α : Type} (tok : Str) (pred : Str → Bool) (toVal : α → Str)
    (l : List (Str × α)) (input : Str) (h : ∀ p ∈ l, pred p.1 = false) :
    mapLoop tok pred toVal l input = input := by
  induction l generalizing input with
  | nil => rfl
  | cons p rest ih =>
    obtain ⟨k, v⟩ := p
    have hk : pred k = false := h (k, v) (by simp)
    simp only [mapLoop, hk, Bool.false_eq_true, if_neg, ite_false]
    exact ih input fun q hq => h q (by simp [hq])

theorem mapLoop_canon {α : Type} (tok : Str) (pred : Str → Bool) (toVal : α → Str)
    (l : List (Str × α)) (input : Str)
    (h : (l.filter (fun p => pred p.1)).length ≤ 1) :
    mapLoop tok pred toVal l input =
      (match lookup1 pred l with
       | Option.some kv => replaceAll input tok (toVal kv.2)
       | Option.none => input) := by
  induction l generalizing input with
  | nil => rfl
  | cons p rest ih =>
    obtain ⟨k, v⟩ := p
    cases hpk : pred k with
    | false =>
      have hfc : List.filter (fun p => pred p.1) ((k, v) :: rest) =
          List.filter (fun p => pred p.1) rest :=
        List.filter_cons_of_neg (by simp [hpk])
      have hL : lookup1 pred ((k, v) :: rest) = lookup1 pred rest := by
        simp [lookup1, hfc]
      rw [hL]
      have hm : mapLoop tok pred toVal ((k, v) :: rest) input =
          mapLoop tok pred toVal rest input := by
        simp [mapLoop, hpk]
      rw [hm]
      exact ih input (by rw [← hfc]; exact h)
    | true =>
      have hfc : List.filter (fun p => pred p.1) ((k, v) :: rest) =
          (k, v) :: List.filter (fun p => pred p.1) rest :=
        List.filter_cons_of_pos (by simp [hpk])
      have hfil : rest.filter (fun p => pred p.1) = [] := by
        rw [hfc] at h
        simp only [List.length_cons] at h
        exact List.length_eq_zero.mp (by omega)
      have hrest : ∀ q ∈ rest, pred q.1 = false := by
        intro q hq
        by_contra hcon
        have hq' : q ∈ rest.filter (fun p => pred p.1) :=
          List.mem_filter.mpr ⟨hq, by simpa using (Bool.not_eq_false _).mp hcon⟩
        simp [hfil] at hq'
      have hL : lookup1 pred ((k, v) :: rest) = Option.some (k, v) := by
        simp [lookup1, hfc]
      rw [hL]
      have hm : mapLoop tok pred toVal ((k, v) :: rest) input =
          mapLoop tok pred toVal rest (replaceAll input tok (toVal v)) := by
        simp [mapLoop, hpk]
      rw [hm]
      exact mapLoop_nomatch tok pred toVal rest _ hrest

theorem lookup1_perm {α : Type} (pred : Str → Bool) {l l' : List (Str × α)}
    (hp : l.Perm l') (h : (l.filter (fun p => pred p.1)).length ≤ 1) :
    lookup1 pred l = lookup1 pred l' := by
  have hf : (l.filter (fun p => pred p.1)).Perm (l'.filter (fun p => pred p.1)) :=
    hp.filter _
  rcases hl : l.filter (fun p => pred p.1) with _ | ⟨a, _ | ⟨b, t⟩⟩
  · rw [hl] at hf
    have h2 : l'.filter (fun p => pred p.1) = [] := hf.symm.eq_nil
    unfold lookup1
    rw [hl, h2]
  · rw [hl] at hf
    have h2 : l'.filter (fun p => pred p.1) = [a] := List.perm_singleton.mp hf.symm
    unfold lookup1
    rw [hl, h2]
  · rw [hl] at h
    simp at h

/-- Under a pairwise "no two keys both match" discipline, at most one
entry passes the filter. -/
theorem filter_len_le_one {α : Type} (pred : Str → Bool) (R : (Str × α) → (Str × α) → Prop)
    (l : List (Str × α)) (hd : l.Pairwise R)
    (hR : ∀ a b, pred a.1 = true → pred b.1 = true → R a b → False) :
    (l.filter (fun p => pred p.1)).length ≤ 1 := by
  induction l with
  | nil => simp
  | cons p rest ih =>
    have hpair := List.pairwise_cons.mp hd
    cases hpk : pred p.1 with
    | false =>
      rw [List.filter_cons_of_neg (by simp [hpk])]
      exact ih hpair.2
    | true =>
      rw [List.filter_cons_of_pos (by simp [hpk])]
      have hfil : rest.filter (fun q => pred q.1) = [] := by
        rw [List.filter_eq_nil_iff]
        intro q hq
        simp only [Bool.not_eq_true]
        cases hq2 : pred q.1 with
        | false => rfl
        | true => exact absurd (hR p q hpk hq2 (hpair.1 q hq)) (fun f => f)
      simp [hfil]

/-- `eqFold` is an equivalence on keys: two keys that both fold-match a
common `want` fold-match each other. -/
theorem eqFold_trans_want (a b want : Str) (ha : eqFold a want = true)
    (hb : eqFold b want = true) : eqFold a b = true := by
  simp only [eqFold, decide_eq_true_eq] at *
  rw [ha, hb]

/-! ## Skipping the branches a token does not trigger -/

theorem switchStep_skip (r : Request) (tok input : Str)
    (h : ∀ kw ∈ keywordToks, tok ≠ kw) : switchStep r tok input = input := by
  have m : ∀ kw, kw ∈ keywordToks → tok ≠ kw := h
  simp only [keywordToks, List.mem_cons, List.not_mem_nil, or_false] at m
  simp only [switchStep,
    if_neg (m kwUri (Or.inl rfl)),
    if_neg (m kwDir (Or.inr (Or.inl rfl))),
    if_neg (m kwFile (Or.inr (Or.inr (Or.inl rfl)))),
    if_neg (m kwHost (Or.inr (Or.inr (Or.inr (Or.inl rfl))))),
    if_neg (m kwHostonly (Or.inr (Or.inr (Or.inr (Or.inr (Or.inl rfl)))))),
    if_neg (m kwMethod (Or.inr (Or.inr (Or.inr (Or.inr (Or.inr (Or.inl rfl))))))),
    if_neg (m kwPath (Or.inr (Or.inr (Or.inr (Or.inr (Or.inr (Or.inr (Or.inl rfl)))))))),
    if_neg (m kwPathEsc (Or.inr (Or.inr (Or.inr (Or.inr (Or.inr (Or.inr (Or.inr (Or.inl rfl))))))))),
    if_neg (m kwPort (Or.inr (Or.inr (Or.inr (Or.inr (Or.inr (Or.inr (Or.inr (Or.inr (Or.inl rfl)))))))))),
    if_neg (m kwQuery (Or.inr (Or.inr (Or.inr (Or.inr (Or.inr (Or.inr (Or.inr (Or.inr (Or.inr (Or.inl rfl))))))))))),
    if_neg (m kwQueryEsc (Or.inr (Or.inr (Or.inr (Or.inr (Or.inr (Or.inr (Or.inr (Or.inr (Or.inr (Or.inr (Or.inl rfl)))))))))))),
    if_neg (m kwUriEsc (Or.inr (Or.inr (Or.inr (Or.inr (Or.inr (Or.inr (Or.inr (Or.inr (Or.inr (Or.inr (Or.inr (Or.inl rfl))))))))))))),
    if_neg (m kwUser (Or.inr (Or.inr (Or.inr (Or.inr (Or.inr (Or.inr (Or.inr (Or.inr (Or.inr (Or.inr (Or.inr (Or.inr rfl)))))))))))))]

theorem not_kw_snd (c : Char) (rest : Str)
    (n1 : c ≠ 'u') (n2 : c ≠ 'd') (n3 : c ≠ 'f') (n4 : c ≠ 'h')
    (n5 : c ≠ 'm') (n6 : c ≠ 'p') (n7 : c ≠ 'q') :
    ∀ kw ∈ keywordToks, ('{' :: c :: rest) ≠ kw := by
  intro kw hkw heq
  simp only [keywordToks, kwUri, kwDir, kwFile, kwHost, kwHostonly, kwMethod, kwPath,
    kwPathEsc, kwPort, kwQuery, kwQueryEsc, kwUriEsc, kwUser,
    List.mem_cons, List.not_mem_nil, or_false] at hkw
  rcases hkw with rfl | rfl | rfl | rfl | rfl | rfl | rfl | rfl | rfl | rfl | rfl | rfl | rfl <;>
    simp only [List.cons.injEq] at heq <;>
    first
      | exact n1 heq.1
      | exact n2 heq.1
      | exact n3 heq.1
      | exact n4 heq.1
      | exact n5 heq.1
      | exact n6 heq.1
      | exact n7 heq.1
      | exact n1 heq.2.1
      | exact n2 heq.2.1
      | exact n3 heq.2.1
      | exact n4 heq.2.1
      | exact n5 heq.2.1
      | exact n6 heq.2.1
      | exact n7 heq.2.1

theorem getD_one (a b : Char) (rest : Str) : (a :: b :: rest).getD 1 ' ' = b := by
  simp [List.getD]

theorem isPre_labelPre_false (c : Char) (hc : c ≠ 'l') (rest : Str) :
    isPre labelPre ('{' :: c :: rest) = false := by
  simp [labelPre, isPre, Ne.symm hc]

theorem labelStep_skip (r : Request) (tok input : Str) (h : isPre labelPre tok = false) :
    labelStep r tok input = Ctl.next input := by
  simp [labelStep, h]

theorem headerStep_skip (r : Request) (tok input : Str) (h : tok.getD 1 ' ' ≠ '>') :
    headerStep r tok input = input := by
  unfold headerStep
  rw [if_neg h]

theorem cookieStep_skip (r : Request) (tok input : Str) (h : tok.getD 1 ' ' ≠ '~') :
    cookieStep r tok input = input := by
  unfold cookieStep
  rw [if_neg h]

theorem queryStep_skip (r : Request) (tok input : Str) (h : tok.getD 1 ' ' ≠ '?') :
    queryStep r tok input = input := by
  unfold queryStep
  rw [if_neg h]

theorem numberStep_skip (rm : RegexMatches) (tok input : Str)
    (h : isDigitCh (tok.getD 1 ' ') = false) : numberStep rm tok input = Ctl.next input := by
  unfold numberStep
  rw [if_neg (by rw [h]; simp)]

theorem namedStep_notmap_nil (tok input : Str) :
    namedStep RegexMatches.nilVal tok input = input := by
  cases h : ((tok.drop 1).dropLast).any isAlphaCh <;> simp [namedStep, h]

theorem namedStep_notmap_slice (caps : List Str) (tok input : Str) :
    namedStep (RegexMatches.slice caps) tok input = input := by
  cases h : ((tok.drop 1).dropLast).any isAlphaCh <;> simp [namedStep, h]

/-! ## Character-class facts -/

theorem alphaCh_not_digit (c : Char) (h : isAlphaCh c = true) : isDigitCh c = false := by
  cases hd : isDigitCh c with
  | false => rfl
  | true =>
    exfalso
    simp only [isAlphaCh, Bool.or_eq_true, Bool.and_eq_true, decide_eq_true_eq] at h
    simp only [isDigitCh, Bool.and_eq_true, decide_eq_true_eq] at hd
    rcases h with ⟨h1, h2⟩ | ⟨h1, h2⟩ <;> omega

theorem alphaCh_ne_sigils (c : Char) (h : isAlphaCh c = true) :
    c ≠ '~' ∧ c ≠ '>' ∧ c ≠ '?' := by
  refine ⟨?_, ?_, ?_⟩ <;> rintro rfl <;> revert h <;> decide

theorem lookup1_none_all_false {α : Type} (pred : Str → Bool) (l : List (Str × α))
    (h : lookup1 pred l = Option.none) : ∀ p ∈ l, pred p.1 = false := by
  have hf : l.filter (fun p => pred p.1) = [] := by
    have := h
    unfold lookup1 at this
    exact List.head?_eq_none_iff.mp this
  intro p hp
  by_contra hcon
  have : p ∈ l.filter (fun p => pred p.1) :=
    List.mem_filter.mpr ⟨hp, by simpa using (Bool.not_eq_false _).mp hcon⟩
  simp [hf] at this

/-! ## Evaluating `processToken` on each token shape -/

theorem processToken_cookie (r : Request) (name : Str) (input : Str) :
    processToken r RegexMatches.nilVal ('{' :: '~' :: (name ++ ['}'])) input =
      Ctl.next (match assocFirst name r.cookies with
        | Option.some v => replaceAll input ('{' :: '~' :: (name ++ ['}'])) v
        | Option.none => input) := by
  have hgd : ('{' :: '~' :: (name ++ ['}'])).getD 1 ' ' = '~' := getD_one _ _ _
  have hsw : switchStep r ('{' :: '~' :: (name ++ ['}'])) input = input :=
    switchStep_skip _ _ _ (not_kw_snd '~' _ (by decide) (by decide) (by decide) (by decide)
      (by decide) (by decide) (by decide))
  have hlb : labelStep r ('{' :: '~' :: (name ++ ['}'])) input = Ctl.next input :=
    labelStep_skip _ _ _ (isPre_labelPre_false '~' (by decide) _)
  have hname : (('{' :: '~' :: (name ++ ['}'])).drop 2).dropLast = name := by
    simp
  have hhd : headerStep r ('{' :: '~' :: (name ++ ['}'])) input = input :=
    headerStep_skip _ _ _ (by rw [hgd]; decide)
  have hck : cookieStep r ('{' :: '~' :: (name ++ ['}'])) input =
      (match assocFirst name r.cookies with
        | Option.some v => replaceAll input ('{' :: '~' :: (name ++ ['}'])) v
        | Option.none => input) := by
    unfold cookieStep
    rw [if_pos hgd, hname]
  have hq : ∀ s, queryStep r ('{' :: '~' :: (name ++ ['}'])) s = s := fun s =>
    queryStep_skip _ _ _ (by rw [hgd]; decide)
  have hn : ∀ s, numberStep RegexMatches.nilVal ('{' :: '~' :: (name ++ ['}'])) s = Ctl.next s :=
    fun s => numberStep_skip _ _ _ (by rw [hgd]; decide)
  have hm : ∀ s, namedStep RegexMatches.nilVal ('{' :: '~' :: (name ++ ['}'])) s = s :=
    fun s => namedStep_notmap_nil _ _
  unfold processToken
  cases hac : assocFirst name r.cookies with
  | none =>
    rw [hac] at hck
    simp only [hsw, hlb, hhd, hck, hq, hn, hm, hac]
  | some v =>
    rw [hac] at hck
    simp only [hsw, hlb, hhd, hck, hq, hn, hm, hac]

/-! ## Running the loop on a template that is exactly one token -/

theorem parse_one_next (input : Str) (r : Request) (rm : RegexMatches) (v : Str)
    (hscan : scanTokens input = [input])
    (hp : processToken r rm input input = Ctl.next v) :
    parsePlaceholders input r rm [] = RunResult.ret v Option.none := by
  unfold parsePlaceholders
  rw [hscan]
  unfold runTokens
  rw [hp]
  simp only [runTokens]
  rfl

theorem parse_one_err (input : Str) (r : Request) (rm : RegexMatches) (e : RErr)
    (hscan : scanTokens input = [input])
    (hp : processToken r rm input input = Ctl.retErr [] e) :
    parsePlaceholders input r rm [] = RunResult.ret [] (Option.some e) := by
  unfold parsePlaceholders
  rw [hscan]
  unfold runTokens
  rw [hp]

/-- Claim C2 (amended): for a cookie token whose name is made of word
characters, a cookie hit substitutes the first matching cookie's value
(for every occurrence of the token, second conjunct), and a cookie miss
leaves the token's literal text in the output — not the empty string —
with no error either way. -/
theorem claim_C2_amended :
    (∀ (name : Str), name ≠ [] → name.all isWordChar = true → ∀ (r : Request),
      parsePlaceholders ('{' :: '~' :: (name ++ ['}'])) r RegexMatches.nilVal [] =
        RunResult.ret
          (match assocFirst name r.cookies with
           | Option.some v => v
           | Option.none => '{' :: '~' :: (name ++ ['}'])) Option.none) ∧
    parsePlaceholders ['{', '~', 'c', '}', ' ', '{', '~', 'c', '}']
        { req0 with cookies := [(['c'], ['x', 'y', 'z'])] } RegexMatches.nilVal [] =
      RunResult.ret ['x', 'y', 'z', ' ', 'x', 'y', 'z'] Option.none := by
  constructor
  · intro name h1 h2 r
    apply parse_one_next
    · exact scan_single_sigil '~' (Or.inl rfl) name h1 h2
    · rw [processToken_cookie r name]
      cases hac : assocFirst name r.cookies with
      | none => simp
      | some v =>
        simp only
        rw [replaceAll_self _ v (by simp)]
  · decide

/-- Claim C2, as frozen, is false on the code: with no cookie named
`session`, the rendered output is the literal token text, which is not the
empty string the claim requires. -/
theorem claim_C2_counterexample :
    parsePlaceholders ['{', '~', 's', 'e', 's', 's', 'i', 'o', 'n', '}'] req0
        RegexMatches.nilVal [] =
      RunResult.ret ['{', '~', 's', 'e', 's', 's', 'i', 'o', 'n', '}'] Option.none ∧
    (['{', '~', 's', 'e', 's', 's', 'i', 'o', 'n', '}'] : Str) ≠ [] := by
  exact ⟨by decide, by decide⟩

/-- Witness for `claim_C2_amended`: concrete cookie hit. -/
theorem claim_C2_witness :
    parsePlaceholders ('{' :: '~' :: ((['s', 'e', 's', 's', 'i', 'o', 'n'] : Str) ++ ['}']))
        { req0 with cookies := [(['s', 'e', 's', 's', 'i', 'o', 'n'], ['x', 'y', 'z'])] }
        RegexMatches.nilVal [] =
      RunResult.ret ['x', 'y', 'z'] Option.none := by
  rw [claim_C2_amended.1 ['s', 'e', 's', 's', 'i', 'o', 'n'] (by decide) (by decide)
    { req0 with cookies := [(['s', 'e', 's', 's', 'i', 'o', 'n'], ['x', 'y', 'z'])] }]
  decide

theorem processToken_header (r : Request) (name input : Str) :
    processToken r RegexMatches.nilVal ('{' :: '>' :: (name ++ ['}'])) input =
      Ctl.next (mapLoop ('{' :: '>' :: (name ++ ['}'])) (fun k => eqFold k name)
        joinComma r.headers input) := by
  have hgd : ('{' :: '>' :: (name ++ ['}'])).getD 1 ' ' = '>' := getD_one _ _ _
  have hsw : switchStep r ('{' :: '>' :: (name ++ ['}'])) input = input :=
    switchStep_skip _ _ _ (not_kw_snd '>' _ (by decide) (by decide) (by decide) (by decide)
      (by decide) (by decide) (by decide))
  have hlb : labelStep r ('{' :: '>' :: (name ++ ['}'])) input = Ctl.next input :=
    labelStep_skip _ _ _ (isPre_labelPre_false '>' (by decide) _)
  have hname : (('{' :: '>' :: (name ++ ['}'])).drop 2).dropLast = name := by
    simp
  have hhd : headerStep r ('{' :: '>' :: (name ++ ['}'])) input =
      mapLoop ('{' :: '>' :: (name ++ ['}'])) (fun k => eqFold k name)
        joinComma r.headers input := by
    unfold headerStep
    rw [if_pos hgd]
    simp only [hname]
  have hck : ∀ s, cookieStep r ('{' :: '>' :: (name ++ ['}'])) s = s := fun s =>
    cookieStep_skip _ _ _ (by rw [hgd]; decide)
  have hq : ∀ s, queryStep r ('{' :: '>' :: (name ++ ['}'])) s = s := fun s =>
    queryStep_skip _ _ _ (by rw [hgd]; decide)
  have hn : ∀ s, numberStep RegexMatches.nilVal ('{' :: '>' :: (name ++ ['}'])) s = Ctl.next s :=
    fun s => numberStep_skip _ _ _ (by rw [hgd]; decide)
  have hm : ∀ s, namedStep RegexMatches.nilVal ('{' :: '>' :: (name ++ ['}'])) s = s :=
    fun s => namedStep_notmap_nil _ _
  unfold processToken
  simp only [hsw, hlb, hhd, hck, hq, hn, hm]

/-- Claim C4 (amended): for a header token whose name is made of word
characters, against a header map with no two case-fold-equal keys: a
case-insensitive hit replaces the token (every occurrence — second
conjunct) by the matching key's values joined with `,`; a miss leaves the
token's literal text; no error either way.  A name containing any other
character (such as `-`) is not recognized as a token at all (see the
counterexample). -/
theorem claim_C4_amended :
    (∀ (name : Str), name ≠ [] → name.all isWordChar = true → ∀ (r : Request),
      r.headers.Pairwise (fun a b => eqFold a.1 b.1 = false) →
      parsePlaceholders ('{' :: '>' :: (name ++ ['}'])) r RegexMatches.nilVal [] =
        RunResult.ret
          (match lookup1 (fun k => eqFold k name) r.headers with
           | Option.some kv => joinComma kv.2
           | Option.none => '{' :: '>' :: (name ++ ['}'])) Option.none) ∧
    parsePlaceholders ['{', '>', 'a', '}', ' ', '{', '>', 'a', '}']
        { req0 with headers := [(['A'], [['x'], ['y']])] } RegexMatches.nilVal [] =
      RunResult.ret ['x', ',', 'y', ' ', 'x', ',', 'y'] Option.none := by
  constructor
  · intro name h1 h2 r hd
    apply parse_one_next
    · exact scan_single_sigil '>' (Or.inr (Or.inl rfl)) name h1 h2
    · rw [processToken_header r name]
      have hlen : (r.headers.filter (fun p => eqFold p.1 name)).length ≤ 1 :=
        filter_len_le_one (fun k => eqFold k name) _ r.headers hd
          (fun a b ha hb hR => by
            rw [eqFold_trans_want a.1 b.1 name ha hb] at hR
            exact Bool.noConfusion hR)
      rw [mapLoop_canon _ _ _ _ _ hlen]
      cases hl : lookup1 (fun k => eqFold k name) r.headers with
      | none => simp
      | some kv =>
        simp only
        rw [replaceAll_self _ _ (by simp)]
  · decide

/-- Claim C4, as frozen, is false on the code: the spec's own example
header name `X-Test` contains `-`, which is not a word character, so
`\x7b>X-Test\x7d` never matches the token pattern; the header is present
with values `a, b`, yet the output is the literal text instead of `a,b`. -/
theorem claim_C4_counterexample :
    parsePlaceholders ['{', '>', 'X', '-', 'T', 'e', 's', 't', '}']
        { req0 with headers := [(['X', '-', 'T', 'e', 's', 't'], [['a'], ['b']])] }
        RegexMatches.nilVal [] =
      RunResult.ret ['{', '>', 'X', '-', 'T', 'e', 's', 't', '}'] Option.none ∧
    (['{', '>', 'X', '-', 'T', 'e', 's', 't', '}'] : Str) ≠ ['a', ',', 'b'] := by
  exact ⟨by decide, by decide⟩

/-- Witness for `claim_C4_amended`: case-insensitive hit, values joined. -/
theorem claim_C4_witness :
    parsePlaceholders ('{' :: '>' :: ((['x', 't'] : Str) ++ ['}']))
        { req0 with headers := [(['X', 'T'], [['a'], ['b']])] } RegexMatches.nilVal [] =
      RunResult.ret ['a', ',', 'b'] Option.none := by
  rw [claim_C4_amended.1 ['x', 't'] (by decide) (by decide)
    { req0 with headers := [(['X', 'T'], [['a'], ['b']])] } (by simp)]
  decide

theorem digit_isWordChar (c : Char) (h : isDigitCh c = true) : isWordChar c = true := by
  simp [isWordChar, h]

theorem processToken_label (r : Request) (ds : Str) (hds : ds ≠ [])
    (hdig : ds.all isDigitCh = true) (hbound : digitsVal ds ≤ 9223372036854775807)
    (input : Str) :
    processToken r RegexMatches.nilVal ('{' :: 'l' :: 'a' :: 'b' :: 'e' :: 'l' :: (ds ++ ['}'])) input =
      (if digitsVal ds < 1 then Ctl.retErr [] RErr.invalidLabelIndex
       else if digitsVal ds > (splitOnChar '.' (hostOnly r.host)).length then
         Ctl.retErr [] (RErr.labelIndexOutOfRange (splitOnChar '.' (hostOnly r.host)).length)
       else Ctl.next (replaceAll input ('{' :: 'l' :: 'a' :: 'b' :: 'e' :: 'l' :: (ds ++ ['}']))
         ((splitOnChar '.' (hostOnly r.host)).getD (digitsVal ds - 1) []))) := by
  have hgd : ('{' :: 'l' :: 'a' :: 'b' :: 'e' :: 'l' :: (ds ++ ['}'])).getD 1 ' ' = 'l' :=
    getD_one _ _ _
  have hsw : switchStep r ('{' :: 'l' :: 'a' :: 'b' :: 'e' :: 'l' :: (ds ++ ['}'])) input = input :=
    switchStep_skip _ _ _ (not_kw_snd 'l' _ (by decide) (by decide) (by decide) (by decide)
      (by decide) (by decide) (by decide))
  have hpre : isPre labelPre ('{' :: 'l' :: 'a' :: 'b' :: 'e' :: 'l' :: (ds ++ ['}'])) = true := by
    simp [labelPre, isPre]
  have hn6 : (('{' :: 'l' :: 'a' :: 'b' :: 'e' :: 'l' :: (ds ++ ['}'])).drop 6).dropLast = ds := by
    simp
  have hatoi : atoiNat ds = Option.some (digitsVal ds) := by
    unfold atoiNat
    rw [if_pos ⟨hds, hdig, hbound⟩]
  have hls : labelStep r ('{' :: 'l' :: 'a' :: 'b' :: 'e' :: 'l' :: (ds ++ ['}'])) input =
      (if digitsVal ds < 1 then Ctl.retErr [] RErr.invalidLabelIndex
       else if digitsVal ds > (splitOnChar '.' (hostOnly r.host)).length then
         Ctl.retErr [] (RErr.labelIndexOutOfRange (splitOnChar '.' (hostOnly r.host)).length)
       else Ctl.next (replaceAll input ('{' :: 'l' :: 'a' :: 'b' :: 'e' :: 'l' :: (ds ++ ['}']))
         ((splitOnChar '.' (hostOnly r.host)).getD (digitsVal ds - 1) []))) := by
    unfold labelStep
    rw [if_pos hpre, hn6, hatoi]
  have hhd : ∀ s, headerStep r ('{' :: 'l' :: 'a' :: 'b' :: 'e' :: 'l' :: (ds ++ ['}'])) s = s :=
    fun s => headerStep_skip _ _ _ (by rw [hgd]; decide)
  have hck : ∀ s, cookieStep r ('{' :: 'l' :: 'a' :: 'b' :: 'e' :: 'l' :: (ds ++ ['}'])) s = s :=
    fun s => cookieStep_skip _ _ _ (by rw [hgd]; decide)
  have hq : ∀ s, queryStep r ('{' :: 'l' :: 'a' :: 'b' :: 'e' :: 'l' :: (ds ++ ['}'])) s = s :=
    fun s => queryStep_skip _ _ _ (by rw [hgd]; decide)
  have hn : ∀ s, numberStep RegexMatches.nilVal ('{' :: 'l' :: 'a' :: 'b' :: 'e' :: 'l' :: (ds ++ ['}'])) s = Ctl.next s :=
    fun s => numberStep_skip _ _ _ (by rw [hgd]; decide)
  have hm : ∀ s, namedStep RegexMatches.nilVal ('{' :: 'l' :: 'a' :: 'b' :: 'e' :: 'l' :: (ds ++ ['}'])) s = s :=
    fun s => namedStep_notmap_nil _ _
  unfold processToken
  rw [hsw, hls]
  by_cases h1 : digitsVal ds < 1
  · simp only [if_pos h1]
  · simp only [if_neg h1]
    by_cases h2 : digitsVal ds > (splitOnChar '.' (hostOnly r.host)).length
    · simp only [if_pos h2]
    · simp only [if_neg h2, hhd, hck, hq, hn, hm]

theorem processToken_label_overflow (r : Request) (ds : Str)
    (hover : digitsVal ds > 9223372036854775807) (input : Str) :
    processToken r RegexMatches.nilVal ('{' :: 'l' :: 'a' :: 'b' :: 'e' :: 'l' :: (ds ++ ['}'])) input =
      Ctl.retErr [] RErr.atoiErr := by
  have hsw : switchStep r ('{' :: 'l' :: 'a' :: 'b' :: 'e' :: 'l' :: (ds ++ ['}'])) input = input :=
    switchStep_skip _ _ _ (not_kw_snd 'l' _ (by decide) (by decide) (by decide) (by decide)
      (by decide) (by decide) (by decide))
  have hpre : isPre labelPre ('{' :: 'l' :: 'a' :: 'b' :: 'e' :: 'l' :: (ds ++ ['}'])) = true := by
    simp [labelPre, isPre]
  have hn6 : (('{' :: 'l' :: 'a' :: 'b' :: 'e' :: 'l' :: (ds ++ ['}'])).drop 6).dropLast = ds := by
    simp
  have hatoi : atoiNat ds = Option.none := by
    unfold atoiNat
    rw [if_neg (fun hcon => absurd hcon.2.2 (by omega))]
  have hls : labelStep r ('{' :: 'l' :: 'a' :: 'b' :: 'e' :: 'l' :: (ds ++ ['}'])) input =
      Ctl.retErr [] RErr.atoiErr := by
    unfold labelStep
    rw [if_pos hpre, hn6, hatoi]
  unfold processToken
  rw [hsw, hls]

/-- Claim C6 (amended): a `labelN` token (N numeric) splits `hostonly` on
`.` and substitutes the Nth label 1-based; N = 0 fails with the
invalid-index error, and N beyond the label count fails with the
out-of-range error — provided N fits Go's 64-bit `int`.  A numeric N
beyond 2^63 - 1 instead fails with the `strconv.Atoi` range error
(fourth conjunct; see the counterexample). -/
theorem claim_C6 (ds : Str) (h1 : ds ≠ []) (h2 : ds.all isDigitCh = true) (r : Request) :
    (digitsVal ds = 0 →
      parsePlaceholders ('{' :: 'l' :: 'a' :: 'b' :: 'e' :: 'l' :: (ds ++ ['}'])) r
          RegexMatches.nilVal [] =
        RunResult.ret [] (Option.some RErr.invalidLabelIndex)) ∧
    (digitsVal ds ≤ 9223372036854775807 → 1 ≤ digitsVal ds →
      digitsVal ds ≤ (splitOnChar '.' (hostOnly r.host)).length →
      parsePlaceholders ('{' :: 'l' :: 'a' :: 'b' :: 'e' :: 'l' :: (ds ++ ['}'])) r
          RegexMatches.nilVal [] =
        RunResult.ret ((splitOnChar '.' (hostOnly r.host)).getD (digitsVal ds - 1) [])
          Option.none) ∧
    (digitsVal ds ≤ 9223372036854775807 →
      digitsVal ds > (splitOnChar '.' (hostOnly r.host)).length →
      parsePlaceholders ('{' :: 'l' :: 'a' :: 'b' :: 'e' :: 'l' :: (ds ++ ['}'])) r
          RegexMatches.nilVal [] =
        RunResult.ret []
          (Option.some (RErr.labelIndexOutOfRange (splitOnChar '.' (hostOnly r.host)).length))) ∧
    (digitsVal ds > 9223372036854775807 →
      parsePlaceholders ('{' :: 'l' :: 'a' :: 'b' :: 'e' :: 'l' :: (ds ++ ['}'])) r
          RegexMatches.nilVal [] =
        RunResult.ret [] (Option.some RErr.atoiErr)) := by
  have hword : (['l', 'a', 'b', 'e', 'l'] ++ ds).all isWordChar = true := by
    rw [List.all_append]
    simp only [Bool.and_eq_true]
    refine ⟨by decide, ?_⟩
    rw [List.all_eq_true] at h2 ⊢
    exact fun c hc => digit_isWordChar c (h2 c hc)
  have hscan : scanTokens ('{' :: 'l' :: 'a' :: 'b' :: 'e' :: 'l' :: (ds ++ ['}'])) =
      ['{' :: 'l' :: 'a' :: 'b' :: 'e' :: 'l' :: (ds ++ ['}'])] := by
    have h := scan_single_plain (['l', 'a', 'b', 'e', 'l'] ++ ds) (by simp) hword
    simpa using h
  refine ⟨?_, ?_, ?_, ?_⟩
  · intro h0
    apply parse_one_err _ _ _ _ hscan
    rw [processToken_label r ds h1 h2 (by omega)]
    rw [if_pos (by omega)]
  · intro hbound hge hle
    apply parse_one_next _ _ _ _ hscan
    rw [processToken_label r ds h1 h2 hbound]
    rw [if_neg (by omega), if_neg (by omega)]
    rw [replaceAll_self _ _ (by simp)]
  · intro hbound hgt
    apply parse_one_err _ _ _ _ hscan
    rw [processToken_label r ds h1 h2 hbound]
    rw [if_neg (by omega), if_pos hgt]
  · intro hover
    apply parse_one_err _ _ _ _ hscan
    exact processToken_label_overflow r ds hover _

/-- Claim C6, as frozen, is false on the code: for a label index of
nineteen nines (beyond Go's 64-bit `int`) against the 3-label host
`a.b.c`, the claim demands a `LabelIndexOutOfRange` failure, but
`strconv.Atoi` returns its range error, which the function returns at
line 81. -/
theorem claim_C6_counterexample :
    parsePlaceholders ('{' :: 'l' :: 'a' :: 'b' :: 'e' :: 'l' ::
        ((['9', '9', '9', '9', '9', '9', '9', '9', '9', '9', '9', '9', '9', '9', '9', '9', '9',
           '9', '9'] : Str) ++ ['}'])) req0 RegexMatches.nilVal [] =
      RunResult.ret [] (Option.some RErr.atoiErr) ∧
    digitsVal ['9', '9', '9', '9', '9', '9', '9', '9', '9', '9', '9', '9', '9', '9', '9', '9',
        '9', '9', '9'] > (splitOnChar '.' (hostOnly req0.host)).length ∧
    RunResult.ret ([] : Str) (Option.some RErr.atoiErr) ≠
      RunResult.ret [] (Option.some (RErr.labelIndexOutOfRange 3)) := by
  exact ⟨by decide, by decide, by decide⟩

/-- Witness for `claim_C6`: host `a.b.c`, token `label2` yields `b`;
`label0` and `label9` yield the two index errors, and nineteen nines the
Atoi range error. -/
theorem claim_C6_witness :
    parsePlaceholders ('{' :: 'l' :: 'a' :: 'b' :: 'e' :: 'l' :: ((['2'] : Str) ++ ['}'])) req0
        RegexMatches.nilVal [] = RunResult.ret ['b'] Option.none ∧
    parsePlaceholders ('{' :: 'l' :: 'a' :: 'b' :: 'e' :: 'l' :: ((['0'] : Str) ++ ['}'])) req0
        RegexMatches.nilVal [] = RunResult.ret [] (Option.some RErr.invalidLabelIndex) ∧
    parsePlaceholders ('{' :: 'l' :: 'a' :: 'b' :: 'e' :: 'l' :: ((['9'] : Str) ++ ['}'])) req0
        RegexMatches.nilVal [] =
      RunResult.ret [] (Option.some (RErr.labelIndexOutOfRange 3)) ∧
    parsePlaceholders ('{' :: 'l' :: 'a' :: 'b' :: 'e' :: 'l' ::
        ((['9', '9', '9', '9', '9', '9', '9', '9', '9', '9', '9', '9', '9', '9', '9', '9', '9',
           '9', '9'] : Str) ++ ['}'])) req0 RegexMatches.nilVal [] =
      RunResult.ret [] (Option.some RErr.atoiErr) := by
  refine ⟨?_, ?_, ?_, ?_⟩
  · rw [(claim_C6 ['2'] (by decide) (by decide) req0).2.1 (by decide) (by decide) (by decide)]
    decide
  · rw [(claim_C6 ['0'] (by decide) (by decide) req0).1 (by decide)]
  · rw [(claim_C6 ['9'] (by decide) (by decide) req0).2.2.1 (by decide) (by decide)]
    decide
  · rw [(claim_C6
      ['9', '9', '9', '9', '9', '9', '9', '9', '9', '9', '9', '9', '9', '9', '9', '9', '9',
       '9', '9'] (by decide) (by decide) req0).2.2.2 (by decide)]

theorem alpha_isWordChar (c : Char) (h : isAlphaCh c = true) : isWordChar c = true := by
  simp [isWordChar, h]

theorem processToken_name (r : Request) (rm : RegexMatches) (a : Char) (nm' : Str)
    (ha : isAlphaCh a = true)
    (hkw : ∀ kw ∈ keywordToks, ('{' :: a :: (nm' ++ ['}'])) ≠ kw)
    (hlb : isPre labelPre ('{' :: a :: (nm' ++ ['}'])) = false)
    (hmiss : ∀ pairs, rm = RegexMatches.strMap pairs →
      lookup1 (fun k => decide (k = a :: nm')) pairs = Option.none)
    (input : Str) :
    processToken r rm ('{' :: a :: (nm' ++ ['}'])) input = Ctl.next input := by
  have hgd : ('{' :: a :: (nm' ++ ['}'])).getD 1 ' ' = a := getD_one _ _ _
  have hsig := alphaCh_ne_sigils a ha
  have hsw : switchStep r ('{' :: a :: (nm' ++ ['}'])) input = input :=
    switchStep_skip _ _ _ hkw
  have hls : labelStep r ('{' :: a :: (nm' ++ ['}'])) input = Ctl.next input :=
    labelStep_skip _ _ _ hlb
  have hhd : headerStep r ('{' :: a :: (nm' ++ ['}'])) input = input :=
    headerStep_skip _ _ _ (by rw [hgd]; exact hsig.2.1)
  have hck : cookieStep r ('{' :: a :: (nm' ++ ['}'])) input = input :=
    cookieStep_skip _ _ _ (by rw [hgd]; exact hsig.1)
  have hq : queryStep r ('{' :: a :: (nm' ++ ['}'])) input = input :=
    queryStep_skip _ _ _ (by rw [hgd]; exact hsig.2.2)
  have hn : numberStep rm ('{' :: a :: (nm' ++ ['}'])) input = Ctl.next input :=
    numberStep_skip _ _ _ (by rw [hgd]; exact alphaCh_not_digit a ha)
  have hbody : (('{' :: a :: (nm' ++ ['}'])).drop 1).dropLast = a :: nm' := by
    show (a :: (nm' ++ ['}'])).dropLast = a :: nm'
    rw [show a :: (nm' ++ ['}']) = (a :: nm') ++ ['}'] from rfl]
    exact List.dropLast_concat
  have hm : namedStep rm ('{' :: a :: (nm' ++ ['}'])) input = input := by
    unfold namedStep
    rw [hbody]
    rw [if_pos (by
      rw [List.any_eq_true]
      exact ⟨a, by simp, ha⟩)]
    cases rm with
    | nilVal => rfl
    | slice caps => rfl
    | strMap pairs =>
      exact mapLoop_nomatch _ _ _ _ _ (lookup1_none_all_false _ _ (hmiss pairs rfl))
  unfold processToken
  simp only [hsw, hls, hhd, hck, hq, hn, hm]

/-- Claim C3 (amended): a token whose body is letters optionally followed
by digits, is not one of the thirteen keywords, and does not begin with
`label`, is looked up in the named-capture mapping; when the mapping is
absent (nil or a positional slice) or lacks the name, the literal token
text passes through with no error.  (Bodies beginning with `label`, such
as `labelfoo`, instead hit the label branch and error — see the
counterexample.) -/
theorem claim_C3_amended (ls ds : Str) (h1 : ls ≠ []) (h2 : ls.all isAlphaCh = true)
    (h3 : ds.all isDigitCh = true)
    (hkw : ∀ kw ∈ keywordToks, ('{' :: ((ls ++ ds) ++ ['}'])) ≠ kw)
    (hlb : isPre labelPre ('{' :: ((ls ++ ds) ++ ['}'])) = false)
    (r : Request) (rm : RegexMatches)
    (hmiss : ∀ pairs, rm = RegexMatches.strMap pairs →
      lookup1 (fun k => decide (k = ls ++ ds)) pairs = Option.none) :
    parsePlaceholders ('{' :: ((ls ++ ds) ++ ['}'])) r rm [] =
      RunResult.ret ('{' :: ((ls ++ ds) ++ ['}'])) Option.none := by
  have hword : (ls ++ ds).all isWordChar = true := by
    rw [List.all_append]
    simp only [Bool.and_eq_true]
    constructor
    · rw [List.all_eq_true] at h2 ⊢
      exact fun c hc => alpha_isWordChar c (h2 c hc)
    · rw [List.all_eq_true] at h3 ⊢
      exact fun c hc => digit_isWordChar c (h3 c hc)
  have hscan : scanTokens ('{' :: ((ls ++ ds) ++ ['}'])) = ['{' :: ((ls ++ ds) ++ ['}'])] :=
    scan_single_plain (ls ++ ds) (by simp [h1]) hword
  apply parse_one_next _ _ _ _ hscan
  cases ls with
  | nil => exact absurd rfl h1
  | cons a ls' =>
    have ha : isAlphaCh a = true := by
      rw [List.all_eq_true] at h2
      exact h2 a (by simp)
    exact processToken_name r rm a (ls' ++ ds) ha hkw hlb hmiss _

/-- Claim C3, as frozen, is false on the code: `labelfoo` matches name
syntax, is no keyword and not digits-only, yet rendering `\x7blabelfoo\x7d`
returns the `strconv.Atoi` error instead of passing the token through. -/
theorem claim_C3_counterexample :
    parsePlaceholders ['{', 'l', 'a', 'b', 'e', 'l', 'f', 'o', 'o', '}'] req0
        RegexMatches.nilVal [] =
      RunResult.ret [] (Option.some RErr.atoiErr) ∧
    RunResult.ret ([] : Str) (Option.some RErr.atoiErr) ≠
      RunResult.ret ['{', 'l', 'a', 'b', 'e', 'l', 'f', 'o', 'o', '}'] Option.none := by
  exact ⟨by decide, by decide⟩

/-- Witness for `claim_C3_amended`: name `nm7` absent from a present named
mapping passes through literally. -/
theorem claim_C3_witness :
    parsePlaceholders ('{' :: (((['n', 'm'] : Str) ++ ['7']) ++ ['}'])) req0
        (RegexMatches.strMap [(['o', 't', 'h'], ['v'])]) [] =
      RunResult.ret ('{' :: (((['n', 'm'] : Str) ++ ['7']) ++ ['}'])) Option.none := by
  exact claim_C3_amended ['n', 'm'] ['7'] (by decide) (by decide) (by decide) (by decide)
    (by decide) req0 _ (fun pairs hp => by cases hp; decide)

/-- Claim C1 evaluated at the failing inputs: a positional token with the
capture context absent crashes with a runtime panic instead of returning a
typed error, and a multi-digit positional token indexes with its first
digit only (against two captures, the 12-token resolves to capture 1,
yielding `a`, instead of capture 12 or an out-of-range error). -/
theorem claim_C1_eval :
    parsePlaceholders ['{', '1', '}'] req0 RegexMatches.nilVal [] = RunResult.crashed ∧
    parsePlaceholders ['{', '1', '2', '}'] req0 (RegexMatches.slice [['a'], ['b']]) [] =
      RunResult.ret ['a'] Option.none := by
  exact ⟨by decide, by decide⟩

/-- Claim C10: substitution acts on the evolving string — a Host header
whose value is the text of a path-segment token is substituted for the
host keyword and then itself replaced by the path-segment pass, so request
data injects tokens into the rendered output. -/
theorem claim_C10 :
    parsePlaceholders ['{', 'h', 'o', 's', 't', '}']
        { req0 with host := ['{', '$', '1', '}'] } RegexMatches.nilVal [['i', 'n', 'j']] =
      RunResult.ret ['i', 'n', 'j'] Option.none ∧
    (['i', 'n', 'j'] : Str) ≠ ['{', '$', '1', '}'] := by
  exact ⟨by decide, by decide⟩

/-! ## Fail-fast: every error return carries the empty string -/

theorem labelStep_retErr (r : Request) (tok input s : Str) (e : RErr)
    (h : labelStep r tok input = Ctl.retErr s e) : s = [] := by
  unfold labelStep at h
  split at h
  · split at h
    · injection h with h1 h2
      exact h1.symm
    · split at h
      · injection h with h1 h2
        exact h1.symm
      · split at h
        · injection h with h1 h2
          exact h1.symm
        · exact Ctl.noConfusion h
  · exact Ctl.noConfusion h

theorem numberStep_retErr (rm : RegexMatches) (tok input s : Str) (e : RErr)
    (h : numberStep rm tok input = Ctl.retErr s e) : s = [] := by
  unfold numberStep at h
  split at h
  · split at h
    · injection h with h1 h2
      exact h1.symm
    · split at h
      · split at h
        · exact Ctl.noConfusion h
        · exact Ctl.noConfusion h
      · exact Ctl.noConfusion h
  · exact Ctl.noConfusion h

theorem processToken_retErr (r : Request) (rm : RegexMatches) (tok input s : Str) (e : RErr)
    (h : processToken r rm tok input = Ctl.retErr s e) : s = [] := by
  unfold processToken at h
  split at h
  case _ s2 e2 heq =>
    injection h with h1 h2
    subst h1
    exact labelStep_retErr _ _ _ _ _ heq
  case _ heq => exact Ctl.noConfusion h
  case _ i2 heq =>
    split at h
    case _ s3 e3 heq2 =>
      injection h with h1 h2
      subst h1
      exact numberStep_retErr _ _ _ _ _ heq2
    case _ => exact Ctl.noConfusion h
    case _ => exact Ctl.noConfusion h

theorem runTokens_retErr (r : Request) (rm : RegexMatches) :
    ∀ (ts : List Str) (input s : Str) (e : RErr),
      runTokens r rm ts input = Ctl.retErr s e → s = [] := by
  intro ts
  induction ts with
  | nil =>
    intro input s e h
    exact Ctl.noConfusion h
  | cons t ts ih =>
    intro input s e h
    unfold runTokens at h
    split at h
    · exact ih _ _ _ h
    · injection h with h1 h2
      subst h1
      rename_i heq
      exact processToken_retErr _ _ _ _ _ _ heq
    · exact Ctl.noConfusion h

/-- Claim C7: whenever `parsePlaceholders` returns a non-nil error the
returned string is empty (no partial output: every `return "", err` site
returns the empty string), and the placeholder loop stops at the first
error. -/
theorem claim_C7 :
    (∀ (input : Str) (r : Request) (rm : RegexMatches) (ps : List Str) (out : Str) (e : RErr),
      parsePlaceholders input r rm ps = RunResult.ret out (Option.some e) → out = []) ∧
    (∀ (r : Request) (rm : RegexMatches) (t : Str) (ts : List Str) (s s' : Str) (e : RErr),
      processToken r rm t s = Ctl.retErr s' e →
      runTokens r rm (t :: ts) s = Ctl.retErr s' e) := by
  constructor
  · intro input r rm ps out e h
    unfold parsePlaceholders at h
    split at h
    · exact Option.noConfusion (RunResult.ret.injEq _ _ _ _ ▸ h :
        pathPass ps _ = out ∧ Option.none = Option.some e).2
    · rename_i s2 e2 heq
      injection h with h1 h2
      subst h1
      exact runTokens_retErr _ _ _ _ _ _ heq
    · exact RunResult.noConfusion h
  · intro r rm t ts s s' e h
    unfold runTokens
    rw [h]

/-- Witness for `claim_C7`: the `label0` error returns the empty string. -/
theorem claim_C7_witness :
    parsePlaceholders ['{', 'l', 'a', 'b', 'e', 'l', '0', '}'] req0 RegexMatches.nilVal [] =
      RunResult.ret [] (Option.some RErr.invalidLabelIndex) ∧ ([] : Str) = [] := by
  refine ⟨by decide, ?_⟩
  exact claim_C7.1 ['{', 'l', 'a', 'b', 'e', 'l', '0', '}'] req0 RegexMatches.nilVal [] []
    RErr.invalidLabelIndex (by decide)

/-! ## The path-segment pass -/

theorem parse_noscan (t : Str) (r : Request) (rm : RegexMatches) (ps : List Str)
    (h : scanTokens t = []) :
    parsePlaceholders t r rm ps = RunResult.ret (pathPass ps t) Option.none := by
  unfold parsePlaceholders
  rw [h]
  simp [runTokens]

theorem pathLoop_id (ps : List Str) : ∀ (k : Nat) (t : Str),
    (∀ i, i < ps.length → containsSub t (pathToken (k + 1 + i)) = false) →
    pathLoop k ps t = t := by
  induction ps with
  | nil => intro k t _; rfl
  | cons v rest ih =>
    intro k t h
    unfold pathLoop
    rw [replaceAll_of_not_contains _ _ _ (by simpa using h 0 (by simp))]
    refine ih (k + 1) t ?_
    intro i hi
    have h2 := h (i + 1) (by simp only [List.length_cons]; omega)
    rw [show k + 1 + 1 + i = k + 1 + (i + 1) from by omega]
    exact h2

/-- Claim C8: a template with no scanner tokens goes straight to the
second, unconditional path-segment pass, which never errors (first
conjunct); the pass leaves the template unchanged whenever none of the
in-range tokens occur in it, so an out-of-range `\x7b$N\x7d` stays literal
(second conjunct); the spec's own vector (third conjunct). -/
theorem claim_C8 :
    (∀ (t : Str) (r : Request) (rm : RegexMatches) (ps : List Str),
      scanTokens t = [] →
      parsePlaceholders t r rm ps = RunResult.ret (pathPass ps t) Option.none) ∧
    (∀ (ps : List Str) (t : Str),
      (∀ k, k < ps.length → containsSub t (pathToken (k + 1)) = false) →
      pathPass ps t = t) ∧
    parsePlaceholders ['p', 'a', 't', 'h', '/', '{', '$', '1', '}', '/', '{', '$', '2', '}'] req0
        RegexMatches.nilVal [['f', 'o', 'o']] =
      RunResult.ret ['p', 'a', 't', 'h', '/', 'f', 'o', 'o', '/', '{', '$', '2', '}']
        Option.none := by
  refine ⟨?_, ?_, by decide⟩
  · exact parse_noscan
  · intro ps t h
    unfold pathPass
    exact pathLoop_id ps 0 t
      (fun i hi => by rw [show 0 + 1 + i = i + 1 from by omega]; exact h i hi)

/-- Witness for `claim_C8`: a token-free template, and an out-of-range
path token surviving the pass. -/
theorem claim_C8_witness :
    parsePlaceholders ['a', 'b', 'c'] req0 RegexMatches.nilVal [['x']] =
      RunResult.ret (pathPass [['x']] ['a', 'b', 'c']) Option.none ∧
    pathPass [['x']] ['{', '$', '9', '}'] = ['{', '$', '9', '}'] := by
  constructor
  · exact claim_C8.1 ['a', 'b', 'c'] req0 RegexMatches.nilVal [['x']] (by decide)
  · exact claim_C8.2.1 [['x']] ['{', '$', '9', '}'] (by decide)

/-- Claim C9: a template containing no placeholder tokens and none of the
in-range path tokens renders to itself with no error; consequently the
token-free output of a successful render, rendered again with the same
context, is returned unchanged. -/
theorem claim_C9 :
    (∀ (t : Str) (r : Request) (rm : RegexMatches) (ps : List Str),
      scanTokens t = [] →
      (∀ k, k < ps.length → containsSub t (pathToken (k + 1)) = false) →
      parsePlaceholders t r rm ps = RunResult.ret t Option.none) ∧
    (∀ (t0 out : Str) (r : Request) (rm : RegexMatches) (ps : List Str),
      parsePlaceholders t0 r rm ps = RunResult.ret out Option.none →
      scanTokens out = [] →
      (∀ k, k < ps.length → containsSub out (pathToken (k + 1)) = false) →
      parsePlaceholders out r rm ps = RunResult.ret out Option.none) := by
  have main : ∀ (t : Str) (r : Request) (rm : RegexMatches) (ps : List Str),
      scanTokens t = [] →
      (∀ k, k < ps.length → containsSub t (pathToken (k + 1)) = false) →
      parsePlaceholders t r rm ps = RunResult.ret t Option.none := by
    intro t r rm ps hscan hpath
    rw [parse_noscan t r rm ps hscan]
    have hid : pathPass ps t = t := by
      unfold pathPass
      exact pathLoop_id ps 0 t
        (fun i hi => by rw [show 0 + 1 + i = i + 1 from by omega]; exact hpath i hi)
    rw [hid]
  exact ⟨main, fun t0 out r rm ps _ hscan hpath => main out r rm ps hscan hpath⟩

/-- Witness for `claim_C9`: a literal template is a fixed point. -/
theorem claim_C9_witness :
    parsePlaceholders ['h', 'i'] req0 RegexMatches.nilVal [['x']] =
      RunResult.ret ['h', 'i'] Option.none := by
  exact claim_C9.1 ['h', 'i'] req0 RegexMatches.nilVal [['x']] (by decide) (by decide)

/-! ## Iteration-order independence of the two maps (claim C5) -/

theorem switchStep_headers (r : Request) (hs : List (Str × List Str)) (tok input : Str) :
    switchStep { r with headers := hs } tok input = switchStep r tok input := rfl

theorem labelStep_headers (r : Request) (hs : List (Str × List Str)) (tok input : Str) :
    labelStep { r with headers := hs } tok input = labelStep r tok input := rfl

theorem cookieStep_headers (r : Request) (hs : List (Str × List Str)) (tok input : Str) :
    cookieStep { r with headers := hs } tok input = cookieStep r tok input := rfl

theorem queryStep_headers (r : Request) (hs : List (Str × List Str)) (tok input : Str) :
    queryStep { r with headers := hs } tok input = queryStep r tok input := rfl

theorem headerStep_congr (r : Request) (hs hs' : List (Str × List Str))
    (hp : hs.Perm hs') (hd : hs.Pairwise (fun a b => eqFold a.1 b.1 = false))
    (tok input : Str) :
    headerStep { r with headers := hs } tok input =
      headerStep { r with headers := hs' } tok input := by
  unfold headerStep
  by_cases hc : tok.getD 1 ' ' = '>'
  · rw [if_pos hc, if_pos hc]
    show mapLoop tok (fun k => eqFold k ((tok.drop 2).dropLast)) joinComma hs input =
      mapLoop tok (fun k => eqFold k ((tok.drop 2).dropLast)) joinComma hs' input
    have hlen : (hs.filter (fun p => eqFold p.1 ((tok.drop 2).dropLast))).length ≤ 1 :=
      filter_len_le_one (fun k => eqFold k ((tok.drop 2).dropLast)) _ hs hd
        (fun a b ha hb hR => by
          rw [eqFold_trans_want a.1 b.1 _ ha hb] at hR
          exact Bool.noConfusion hR)
    have hlen' : (hs'.filter (fun p => eqFold p.1 ((tok.drop 2).dropLast))).length ≤ 1 := by
      rw [← (hp.filter (fun p => eqFold p.1 ((tok.drop 2).dropLast))).length_eq]
      exact hlen
    rw [mapLoop_canon _ _ _ _ _ hlen, mapLoop_canon _ _ _ _ _ hlen',
      lookup1_perm _ hp hlen]
  · rw [if_neg hc, if_neg hc]

theorem numberStep_strMap_congr (pairs pairs' : List (Str × Str)) (tok input : Str) :
    numberStep (RegexMatches.strMap pairs) tok input =
      numberStep (RegexMatches.strMap pairs') tok input := by
  unfold numberStep
  by_cases hc : isDigitCh (tok.getD 1 ' ') = true
  · simp only [if_pos hc]
  · simp only [if_neg hc]

theorem namedStep_strMap_congr (pairs pairs' : List (Str × Str))
    (hp : pairs.Perm pairs') (hd : pairs.Pairwise (fun a b => a.1 ≠ b.1))
    (tok input : Str) :
    namedStep (RegexMatches.strMap pairs) tok input =
      namedStep (RegexMatches.strMap pairs') tok input := by
  unfold namedStep
  by_cases hc : ((tok.drop 1).dropLast).any isAlphaCh = true
  · rw [if_pos hc, if_pos hc]
    show mapLoop tok (fun k => decide (k = (tok.drop 1).dropLast)) id pairs input =
      mapLoop tok (fun k => decide (k = (tok.drop 1).dropLast)) id pairs' input
    have hlen : (pairs.filter (fun p => decide (p.1 = (tok.drop 1).dropLast))).length ≤ 1 :=
      filter_len_le_one (fun k => decide (k = (tok.drop 1).dropLast)) _ pairs hd
        (fun a b ha hb hR => by
          simp only [decide_eq_true_eq] at ha hb
          exact hR (ha.trans hb.symm))
    have hlen' : (pairs'.filter (fun p => decide (p.1 = (tok.drop 1).dropLast))).length ≤ 1 := by
      rw [← (hp.filter (fun p => decide (p.1 = (tok.drop 1).dropLast))).length_eq]
      exact hlen
    rw [mapLoop_canon _ _ _ _ _ hlen, mapLoop_canon _ _ _ _ _ hlen',
      lookup1_perm _ hp hlen]
  · rw [if_neg hc, if_neg hc]

theorem processToken_congr (r : Request) (hs hs' : List (Str × List Str))
    (pairs pairs' : List (Str × Str))
    (hp : hs.Perm hs') (hd : hs.Pairwise (fun a b => eqFold a.1 b.1 = false))
    (hp2 : pairs.Perm pairs') (hd2 : pairs.Pairwise (fun a b => a.1 ≠ b.1))
    (tok input : Str) :
    processToken { r with headers := hs } (RegexMatches.strMap pairs) tok input =
      processToken { r with headers := hs' } (RegexMatches.strMap pairs') tok input := by
  unfold processToken
  rw [switchStep_headers r hs, switchStep_headers r hs',
    labelStep_headers r hs, labelStep_headers r hs']
  cases hlab : labelStep r tok (switchStep r tok input) with
  | retErr s e => rfl
  | crashed => rfl
  | next i2 =>
    simp only
    rw [headerStep_congr r hs hs' hp hd tok i2,
      cookieStep_headers r hs, cookieStep_headers r hs',
      queryStep_headers r hs, queryStep_headers r hs',
      numberStep_strMap_congr pairs pairs']
    cases hnum : numberStep (RegexMatches.strMap pairs') tok
        (queryStep r tok (cookieStep r tok (headerStep { r with headers := hs' } tok i2))) with
    | retErr s e => rfl
    | crashed => rfl
    | next i6 =>
      simp only
      rw [namedStep_strMap_congr pairs pairs' hp2 hd2]

theorem runTokens_congr (r : Request) (hs hs' : List (Str × List Str))
    (pairs pairs' : List (Str × Str))
    (hp : hs.Perm hs') (hd : hs.Pairwise (fun a b => eqFold a.1 b.1 = false))
    (hp2 : pairs.Perm pairs') (hd2 : pairs.Pairwise (fun a b => a.1 ≠ b.1)) :
    ∀ (ts : List Str) (input : Str),
      runTokens { r with headers := hs } (RegexMatches.strMap pairs) ts input =
        runTokens { r with headers := hs' } (RegexMatches.strMap pairs') ts input := by
  intro ts
  induction ts with
  | nil => intro input; rfl
  | cons t ts ih =>
    intro input
    unfold runTokens
    rw [processToken_congr r hs hs' pairs pairs' hp hd hp2 hd2 t input]
    cases hpt : processToken { r with headers := hs' } (RegexMatches.strMap pairs') t input with
    | next i2 => exact ih i2
    | retErr s e => rfl
    | crashed => rfl

/-- Claim C5 (amended): rendering does not depend on the iteration order
of the named-capture map, nor on that of the header map provided no two
distinct header keys are case-fold-equal: permuting either map's entries
(with the header keys pairwise non-fold-equal and the capture keys
distinct) leaves the output and the error outcome unchanged.  Without the
fold-distinctness proviso the output can depend on header iteration order
— see the counterexample. -/
theorem claim_C5_amended (t : Str) (ps : List Str) (r : Request)
    (hs hs' : List (Str × List Str)) (pairs pairs' : List (Str × Str))
    (hp : hs.Perm hs') (hd : hs.Pairwise (fun a b => eqFold a.1 b.1 = false))
    (hp2 : pairs.Perm pairs') (hd2 : pairs.Pairwise (fun a b => a.1 ≠ b.1)) :
    parsePlaceholders t { r with headers := hs } (RegexMatches.strMap pairs) ps =
      parsePlaceholders t { r with headers := hs' } (RegexMatches.strMap pairs') ps := by
  unfold parsePlaceholders
  rw [runTokens_congr r hs hs' pairs pairs' hp hd hp2 hd2 (scanTokens t) t]

/-- Claim C5, as frozen, is false on the code: two case-fold-equal header
keys `A` and `a` represent the same multimap regardless of order, yet the
render of the header token picks whichever key the map iteration yields
first — `x` for one order, `y` for the other. -/
theorem claim_C5_counterexample :
    ([((['A'] : Str), [(['x'] : Str)]), (['a'], [['y']])]).Perm
        [(['a'], [['y']]), (['A'], [['x']])] ∧
    parsePlaceholders ['{', '>', 'A', '}']
        { req0 with headers := [(['A'], [['x']]), (['a'], [['y']])] }
        RegexMatches.nilVal [] = RunResult.ret ['x'] Option.none ∧
    parsePlaceholders ['{', '>', 'A', '}']
        { req0 with headers := [(['a'], [['y']]), (['A'], [['x']])] }
        RegexMatches.nilVal [] = RunResult.ret ['y'] Option.none ∧
    (['x'] : Str) ≠ ['y'] := by
  exact ⟨List.Perm.swap _ _ _, by decide, by decide, by decide⟩

/-- Witness for `claim_C5_amended`: fold-distinct header keys permuted,
named captures unchanged. -/
theorem claim_C5_witness :
    parsePlaceholders ['{', '>', 'B', '}']
        { req0 with headers := [(['B'], [['u']]), (['C'], [['w']])] }
        (RegexMatches.strMap [(['n'], ['1'])]) [] =
      parsePlaceholders ['{', '>', 'B', '}']
        { req0 with headers := [(['C'], [['w']]), (['B'], [['u']])] }
        (RegexMatches.strMap [(['n'], ['1'])]) [] := by
  exact claim_C5_amended ['{', '>', 'B', '}'] [] req0
    [(['B'], [['u']]), (['C'], [['w']])] [(['C'], [['w']]), (['B'], [['u']])]
    [(['n'], ['1'])] [(['n'], ['1'])]
    (List.Perm.swap _ _ _) (by decide) (List.Perm.refl _) (by decide)
